import Mathlib

/-!
Verification of the HTTP-to-AMQP bridge middleware core against its
natural-language specification.

The development shallowly embeds the Python sources:
- `circuit_breaker.py` (`CircuitBreaker`): sliding-window failure tracking
  with CLOSED / OPEN / HALF_OPEN states.  Monotonic time is modelled as a
  rational number passed explicitly to every time-dependent operation.
- `amqp_wrapper.py` (`AMQPClient`): the pending-message table of a session
  (a Python dict from delivery tag to message handle) is modelled as a
  function `Nat → Option Nat`; broker interactions are modelled by explicit
  outcome parameters; raised exceptions become `Except` errors.
-/

namespace RMQ

/-! ## Circuit breaker (`circuit_breaker.py`) -/

/-- The three circuit-breaker states of `CircuitBreakerState`. -/
inductive CBState where
  | CLOSED
  | OPEN
  | HALF_OPEN
deriving DecidableEq, Repr

/-- The four tunables passed to `CircuitBreaker.__init__`. -/
structure CBConfig where
  failure_threshold : Nat
  failure_window : ℚ
  recovery_timeout : ℚ
  half_open_requests : Nat
deriving DecidableEq, Repr

/-- The mutable fields of a `CircuitBreaker` instance. -/
structure CircuitBreaker where
  state : CBState
  failures : List ℚ
  last_failure_time : Option ℚ
  opened_at : Option ℚ
  half_open_successes : Nat
  half_open_failures : Nat
  total_trips : Nat
  total_successes : Nat
  total_failures : Nat
deriving DecidableEq, Repr

/-- The state set up by `CircuitBreaker.__init__`. -/
def CircuitBreaker.initial : CircuitBreaker :=
  ⟨.CLOSED, [], none, none, 0, 0, 0, 0, 0⟩

/-- `CircuitBreaker._clean_old_failures`: pop timestamps from the front of the
deque while they are older than `now - failure_window`. -/
def clean_old_failures (cfg : CBConfig) (now : ℚ) (cb : CircuitBreaker) : CircuitBreaker :=
  { cb with failures := cb.failures.dropWhile (fun ts => decide (ts < now - cfg.failure_window)) }

/-- `CircuitBreaker._should_transition_to_half_open`. -/
def should_transition_to_half_open (cfg : CBConfig) (now : ℚ) (cb : CircuitBreaker) : Bool :=
  match cb.state, cb.opened_at with
  | .OPEN, some t => decide (cfg.recovery_timeout ≤ now - t)
  | _, _ => false

/-- `CircuitBreaker.allow_request`: returns the boolean answer together with
the updated breaker state. -/
def allow_request (cfg : CBConfig) (now : ℚ) (cb : CircuitBreaker) : Bool × CircuitBreaker :=
  let cb1 := if should_transition_to_half_open cfg now cb then
      { cb with state := .HALF_OPEN, half_open_successes := 0, half_open_failures := 0 }
    else cb
  match cb1.state with
  | .CLOSED => (true, cb1)
  | .HALF_OPEN =>
      (decide (cb1.half_open_successes + cb1.half_open_failures < cfg.half_open_requests), cb1)
  | .OPEN => (false, cb1)

/-- `CircuitBreaker.record_success`. -/
def record_success (cfg : CBConfig) (cb : CircuitBreaker) : CircuitBreaker :=
  let cb2 := { cb with total_successes := cb.total_successes + 1 }
  if cb2.state = .HALF_OPEN then
    let cb3 := { cb2 with half_open_successes := cb2.half_open_successes + 1 }
    if cfg.half_open_requests ≤ cb3.half_open_successes then
      { cb3 with state := .CLOSED, failures := [], opened_at := none }
    else cb3
  else cb2

/-- `CircuitBreaker.record_failure`. -/
def record_failure (cfg : CBConfig) (now : ℚ) (cb : CircuitBreaker) : CircuitBreaker :=
  let cb2 := { cb with total_failures := cb.total_failures + 1, last_failure_time := some now }
  match cb2.state with
  | .HALF_OPEN =>
      { cb2 with half_open_failures := cb2.half_open_failures + 1, state := .OPEN,
                 opened_at := some now, total_trips := cb2.total_trips + 1 }
  | .CLOSED =>
      let cb3 := clean_old_failures cfg now { cb2 with failures := cb2.failures ++ [now] }
      if cfg.failure_threshold ≤ cb3.failures.length then
        { cb3 with state := .OPEN, opened_at := some now, total_trips := cb3.total_trips + 1 }
      else cb3
  | .OPEN => cb2

/-- `CircuitBreaker.reset`. -/
def reset (cb : CircuitBreaker) : CircuitBreaker :=
  { cb with state := .CLOSED, failures := [], opened_at := none,
            half_open_successes := 0, half_open_failures := 0 }

/-- A sequence of `record_failure` calls, one per listed timestamp. -/
def record_failures (cfg : CBConfig) (events : List ℚ) (cb : CircuitBreaker) : CircuitBreaker :=
  events.foldl (fun c t => record_failure cfg t c) cb

/-- The string values of the `CircuitBreakerState` enum. -/
def CBState.value : CBState → String
  | .CLOSED => "closed"
  | .OPEN => "open"
  | .HALF_OPEN => "half_open"

/-- The dictionary returned by the `CircuitBreaker.metrics` property. -/
structure CBMetrics where
  state : String
  failure_count : Nat
  total_trips : Nat
  total_successes : Nat
  total_failures : Nat
deriving DecidableEq, Repr

/-- `CircuitBreaker.metrics`: `failure_count` cleans the window first. -/
def metrics (cfg : CBConfig) (now : ℚ) (cb : CircuitBreaker) : CBMetrics :=
  ⟨cb.state.value, (clean_old_failures cfg now cb).failures.length,
   cb.total_trips, cb.total_successes, cb.total_failures⟩

/-! ### Helper lemmas about the breaker -/

theorem should_transition_iff (cfg : CBConfig) (now : ℚ) (cb : CircuitBreaker) :
    should_transition_to_half_open cfg now cb = true ↔
      cb.state = .OPEN ∧ ∃ t, cb.opened_at = some t ∧ cfg.recovery_timeout ≤ now - t := by
  unfold should_transition_to_half_open
  rcases hs : cb.state <;> rcases ho : cb.opened_at <;> simp [hs, ho]

/-- Claim C1: `allow_request` first transitions OPEN to HALF_OPEN (resetting the
half-open counters) whenever at least `recovery_timeout` has elapsed since the
circuit opened (and otherwise leaves the breaker unchanged); it then returns
true if the state is CLOSED, in HALF_OPEN returns true exactly while the number
of requests already issued in the current half-open trial is below
`half_open_requests`, and returns false in OPEN. -/
theorem allow_request_spec (cfg : CBConfig) (now : ℚ) (cb : CircuitBreaker) :
    ((cb.state = .OPEN ∧ ∃ t, cb.opened_at = some t ∧ cfg.recovery_timeout ≤ now - t) →
        (allow_request cfg now cb).2.state = .HALF_OPEN ∧
        (allow_request cfg now cb).2.half_open_successes = 0 ∧
        (allow_request cfg now cb).2.half_open_failures = 0) ∧
    ((¬ (cb.state = .OPEN ∧ ∃ t, cb.opened_at = some t ∧ cfg.recovery_timeout ≤ now - t)) →
        (allow_request cfg now cb).2 = cb) ∧
    ((allow_request cfg now cb).2.state = .CLOSED → (allow_request cfg now cb).1 = true) ∧
    ((allow_request cfg now cb).2.state = .HALF_OPEN →
        ((allow_request cfg now cb).1 = true ↔
          (allow_request cfg now cb).2.half_open_successes +
            (allow_request cfg now cb).2.half_open_failures < cfg.half_open_requests)) ∧
    ((allow_request cfg now cb).2.state = .OPEN → (allow_request cfg now cb).1 = false) := by
  by_cases hs : should_transition_to_half_open cfg now cb = true
  · have hiff := (should_transition_iff cfg now cb).mp hs
    refine ⟨fun _ => ?_, fun hn => absurd hiff hn, ?_, ?_, ?_⟩ <;>
      simp [allow_request, hs]
  · have hiff : ¬ (cb.state = .OPEN ∧ ∃ t, cb.opened_at = some t ∧
        cfg.recovery_timeout ≤ now - t) := fun hc =>
      hs ((should_transition_iff cfg now cb).mpr hc)
    refine ⟨fun hc => absurd hc hiff, fun _ => ?_, ?_, ?_, ?_⟩ <;>
      rcases h : cb.state <;>
      simp [allow_request, hs, h]

/-- A closed instance of `allow_request_spec`: a breaker that opened at time 0
is allowed to transition at time 40 with a 30-second recovery timeout. -/
theorem allow_request_spec_witness :
    let cfg : CBConfig := ⟨5, 10, 30, 1⟩
    let cb : CircuitBreaker := ⟨.OPEN, [], some 0, some 0, 0, 0, 1, 0, 5⟩
    ((cb.state = .OPEN ∧ ∃ t, cb.opened_at = some t ∧ cfg.recovery_timeout ≤ (40 : ℚ) - t) →
        (allow_request cfg 40 cb).2.state = .HALF_OPEN ∧
        (allow_request cfg 40 cb).2.half_open_successes = 0 ∧
        (allow_request cfg 40 cb).2.half_open_failures = 0) ∧
    ((¬ (cb.state = .OPEN ∧ ∃ t, cb.opened_at = some t ∧ cfg.recovery_timeout ≤ (40 : ℚ) - t)) →
        (allow_request cfg 40 cb).2 = cb) ∧
    ((allow_request cfg 40 cb).2.state = .CLOSED → (allow_request cfg 40 cb).1 = true) ∧
    ((allow_request cfg 40 cb).2.state = .HALF_OPEN →
        ((allow_request cfg 40 cb).1 = true ↔
          (allow_request cfg 40 cb).2.half_open_successes +
            (allow_request cfg 40 cb).2.half_open_failures < cfg.half_open_requests)) ∧
    ((allow_request cfg 40 cb).2.state = .OPEN → (allow_request cfg 40 cb).1 = false) :=
  allow_request_spec ⟨5, 10, 30, 1⟩ 40 ⟨.OPEN, [], some 0, some 0, 0, 0, 1, 0, 5⟩

/-- The transition edges the specification permits (staying put included). -/
def allowedEdge (a b : CBState) : Prop :=
  b = a ∨ (a = .CLOSED ∧ b = .OPEN) ∨ (a = .OPEN ∧ b = .HALF_OPEN) ∨
    (a = .HALF_OPEN ∧ b = .CLOSED) ∨ (a = .HALF_OPEN ∧ b = .OPEN)

/-- Claim C8: `record_failure`, `record_success` and `allow_request` only move
the breaker along the edges CLOSED→OPEN, OPEN→HALF_OPEN, HALF_OPEN→CLOSED and
HALF_OPEN→OPEN (or leave the state unchanged); in particular never CLOSED
directly to HALF_OPEN and never OPEN directly to CLOSED. -/
theorem transition_edges (cfg : CBConfig) (now : ℚ) (cb : CircuitBreaker) :
    allowedEdge cb.state (allow_request cfg now cb).2.state ∧
    allowedEdge cb.state (record_success cfg cb).state ∧
    allowedEdge cb.state (record_failure cfg now cb).state := by
  refine ⟨?_, ?_, ?_⟩
  · by_cases hs : should_transition_to_half_open cfg now cb = true
    · have := (should_transition_iff cfg now cb).mp hs
      rcases h : cb.state <;>
        simp_all [allow_request, allowedEdge, hs]
    · rcases h : cb.state <;>
        simp [allow_request, allowedEdge, hs, h]
  · rcases h : cb.state <;>
      by_cases hr : cfg.half_open_requests ≤ cb.half_open_successes + 1 <;>
      simp [record_success, allowedEdge, h, hr]
  · rcases h : cb.state <;>
      simp only [record_failure, h] <;>
      first
        | (split <;> simp [allowedEdge, clean_old_failures])
        | simp [allowedEdge]

/-- A concrete breaker used as a counterexample input: it has tripped once and
counted successes and failures. -/
def cbTripped : CircuitBreaker := ⟨.OPEN, [3], some 3, some 3, 0, 1, 1, 2, 3⟩

/-- Counterexample to claim C9 as stated: `reset` does NOT clear the cumulative
counters — after resetting a breaker with `total_trips = 1`,
`total_successes = 2`, `total_failures = 3`, those counters are retained
(and so are nonzero), even though the state returns to CLOSED and the window,
opened-at time and half-open counters are cleared. -/
theorem reset_keeps_cumulative_counters :
    (reset cbTripped).state = .CLOSED ∧
    (reset cbTripped).total_trips = 1 ∧
    (reset cbTripped).total_successes = 2 ∧
    (reset cbTripped).total_failures = 3 := by
  decide

/-- Claim C9 (amended): `reset` returns the breaker to CLOSED and clears the
failure window, the opened-at time and the half-open success/failure counters,
while retaining the cumulative total-trips, total-successes and total-failures
counters (and the last-failure time). -/
theorem reset_spec (cb : CircuitBreaker) :
    (reset cb).state = .CLOSED ∧
    (reset cb).failures = [] ∧
    (reset cb).opened_at = none ∧
    (reset cb).half_open_successes = 0 ∧
    (reset cb).half_open_failures = 0 ∧
    (reset cb).total_trips = cb.total_trips ∧
    (reset cb).total_successes = cb.total_successes ∧
    (reset cb).total_failures = cb.total_failures ∧
    (reset cb).last_failure_time = cb.last_failure_time := by
  simp [reset]

/-! ### Claim C2: failures outside the sliding window -/

theorem dropWhile_append_all (p : ℚ → Bool) (l1 l2 : List ℚ) (h : ∀ x ∈ l1, p x = true) :
    (l1 ++ l2).dropWhile p = l2.dropWhile p := by
  induction l1 with
  | nil => rfl
  | cons a l ih =>
      have ha : p a = true := h a (List.mem_cons_self a l)
      simp only [List.cons_append, List.dropWhile_cons, ha, if_true]
      exact ih fun x hx => h x (List.mem_cons_of_mem a hx)

theorem record_failure_closed_below (cfg : CBConfig) (now : ℚ) (cb : CircuitBreaker)
    (hst : cb.state = .CLOSED) (hlen : cb.failures.length + 1 < cfg.failure_threshold) :
    (record_failure cfg now cb).state = .CLOSED ∧
    (record_failure cfg now cb).failures.length ≤ cb.failures.length + 1 ∧
    ∀ x ∈ (record_failure cfg now cb).failures, x ∈ cb.failures ∨ x = now := by
  have hsub : ((cb.failures ++ [now]).dropWhile
      (fun ts => decide (ts < now - cfg.failure_window))).Sublist (cb.failures ++ [now]) :=
    List.dropWhile_sublist _
  have hlen2 : ((cb.failures ++ [now]).dropWhile
      (fun ts => decide (ts < now - cfg.failure_window))).length ≤ cb.failures.length + 1 := by
    have := hsub.length_le
    simpa using this
  have hnotop : ¬ cfg.failure_threshold ≤ ((cb.failures ++ [now]).dropWhile
      (fun ts => decide (ts < now - cfg.failure_window))).length := by
    omega
  refine ⟨?_, ?_, ?_⟩
  · simp only [record_failure, hst, clean_old_failures, hnotop, if_false]
  · simp only [record_failure, hst, clean_old_failures, hnotop, if_false]
    exact hlen2
  · intro x hx
    simp only [record_failure, hst, clean_old_failures, hnotop, if_false] at hx
    have := hsub.subset hx
    simpa using this

theorem record_failures_closed_below (cfg : CBConfig) (times : List ℚ) (cb : CircuitBreaker)
    (hst : cb.state = .CLOSED)
    (hlen : cb.failures.length + times.length < cfg.failure_threshold) :
    (record_failures cfg times cb).state = .CLOSED ∧
    (record_failures cfg times cb).failures.length ≤ cb.failures.length + times.length ∧
    ∀ x ∈ (record_failures cfg times cb).failures, x ∈ cb.failures ∨ x ∈ times := by
  induction times generalizing cb with
  | nil => exact ⟨hst, by simp [record_failures], fun x hx => Or.inl (by simpa [record_failures] using hx)⟩
  | cons a l ih =>
      have hstep := record_failure_closed_below cfg a cb hst (by simp at hlen; omega)
      have hrec := ih (record_failure cfg a cb) hstep.1
        (by simp at hlen ⊢; omega)
      refine ⟨by simpa [record_failures] using hrec.1, ?_, ?_⟩
      · have h1 := hrec.2.1
        have h2 := hstep.2.1
        simp only [record_failures, List.foldl_cons] at *
        simp at hlen ⊢
        omega
      · intro x hx
        have hx2 := hrec.2.2 x (by simpa [record_failures] using hx)
        rcases hx2 with hx2 | hx2
        · rcases hstep.2.2 x hx2 with h | h
          · exact Or.inl h
          · exact Or.inr (by simp [h])
        · exact Or.inr (by simp [hx2])

theorem record_failure_fresh_opens (cfg : CBConfig) (t : ℚ)
    (h1 : ¬ (t < t - cfg.failure_window)) (hth : cfg.failure_threshold ≤ 1) :
    (record_failure cfg t CircuitBreaker.initial).state = .OPEN := by
  have hp : (decide (t < t - cfg.failure_window)) = false := by
    simpa using h1
  simp [record_failure, CircuitBreaker.initial, clean_old_failures,
    List.dropWhile_cons, hp, hth]

/-- Counterexample to claim C2 as stated: with `failure_threshold = 1`, the
scenario "record `failure_threshold - 1` (that is, zero) failures, wait longer
than `failure_window`, then record one more failure" OPENS the circuit, because
the final failure alone already reaches the threshold. -/
theorem threshold_one_failure_opens :
    (record_failures ⟨1, 10, 30, 1⟩ ([] ++ [(100 : ℚ)]) CircuitBreaker.initial).state = .OPEN := by
  show (record_failure ⟨1, 10, 30, 1⟩ 100 CircuitBreaker.initial).state = .OPEN
  exact record_failure_fresh_opens ⟨1, 10, 30, 1⟩ 100 (by norm_num) (by norm_num)

/-- Claim C2 (amended): provided `failure_threshold ≥ 2`, failures recorded
outside the sliding window never count toward the open threshold: starting from
a fresh breaker, recording `failure_threshold - 1` failures and then one more
failure whose time is more than `failure_window` after every earlier failure
leaves the breaker CLOSED. -/
theorem record_failure_outside_window (cfg : CBConfig) (times : List ℚ) (t : ℚ)
    (hthr : 2 ≤ cfg.failure_threshold)
    (hlen : times.length = cfg.failure_threshold - 1)
    (hold : ∀ s ∈ times, cfg.failure_window < t - s) :
    (record_failures cfg (times ++ [t]) CircuitBreaker.initial).state = .CLOSED := by
  have hsplit : record_failures cfg (times ++ [t]) CircuitBreaker.initial =
      record_failure cfg t (record_failures cfg times CircuitBreaker.initial) := by
    simp [record_failures, List.foldl_append]
  rw [hsplit]
  have hfold := record_failures_closed_below cfg times CircuitBreaker.initial rfl
    (by simp [CircuitBreaker.initial, hlen]; omega)
  set cbm := record_failures cfg times CircuitBreaker.initial with hcbm
  have hall : ∀ x ∈ cbm.failures, (fun ts => decide (ts < t - cfg.failure_window)) x = true := by
    intro x hx
    rcases hfold.2.2 x hx with h | h
    · simp [CircuitBreaker.initial] at h
    · have := hold x h
      simp only [decide_eq_true_eq]
      linarith
  have hdrop : (cbm.failures ++ [t]).dropWhile
      (fun ts => decide (ts < t - cfg.failure_window)) =
      [t].dropWhile (fun ts => decide (ts < t - cfg.failure_window)) :=
    dropWhile_append_all _ _ _ hall
  have hshort : ((cbm.failures ++ [t]).dropWhile
      (fun ts => decide (ts < t - cfg.failure_window))).length ≤ 1 := by
    rw [hdrop]
    have : ([t].dropWhile (fun ts => decide (ts < t - cfg.failure_window))).Sublist [t] :=
      List.dropWhile_sublist _
    simpa using this.length_le
  have hnotop : ¬ cfg.failure_threshold ≤ ((cbm.failures ++ [t]).dropWhile
      (fun ts => decide (ts < t - cfg.failure_window))).length := by
    omega
  simp only [record_failure, hfold.1, clean_old_failures, hnotop, if_false]

/-- A closed instance of the amended C2: threshold 3, window 10, two failures at
times 0 and 1, then one more at time 20, leaves the breaker CLOSED. -/
theorem record_failure_outside_window_witness :
    2 ≤ (3 : Nat) ∧ ([(0 : ℚ), 1].length = 3 - 1) ∧
      (∀ s ∈ [(0 : ℚ), 1], (10 : ℚ) < 20 - s) ∧
      (record_failures ⟨3, 10, 30, 1⟩ ([(0 : ℚ), 1] ++ [20]) CircuitBreaker.initial).state =
        .CLOSED :=
  ⟨by norm_num, by norm_num,
    by
      intro s hs
      rcases List.mem_cons.mp hs with h | h
      · rw [h]; norm_num
      · rw [List.mem_singleton.mp h]; norm_num,
    record_failure_outside_window ⟨3, 10, 30, 1⟩ [0, 1] 20 (by norm_num) (by norm_num)
      (by
        intro s hs
        rcases List.mem_cons.mp hs with h | h
        · rw [h]; norm_num
        · rw [List.mem_singleton.mp h]; norm_num)⟩

/-! ## Pending-message table of a session (`amqp_wrapper.py`)

`UserSession.pending_messages` is a Python dict from delivery tag to message
handle; we model it as a function `Nat → Option Nat` (tag to message handle).
`consume_one`, `acknowledge` and `reject` are modelled by their effect on this
table, with the broker interaction given as an explicit outcome flag. -/

def PendingMap : Type := Nat → Option Nat

/-- The empty pending table a session starts with. -/
def PendingMap.empty : PendingMap := fun _ => none

/-- Python `dict.pop(tag, None)` side: the table with `tag` removed. -/
def PendingMap.eraseTag (pm : PendingMap) (tag : Nat) : PendingMap :=
  fun u => if u = tag then none else pm u

/-- Python `dict[tag] = msg`: the table with `msg` stored under `tag`. -/
def PendingMap.putTag (pm : PendingMap) (tag msg : Nat) : PendingMap :=
  fun u => if u = tag then some msg else pm u

/-- Result of `acknowledge` / `reject`: `.ok b` is a normal boolean return,
`.error e` a re-raised broker failure. -/
def SettleResult : Type := Except String Bool

/-- `AMQPClient.acknowledge` restricted to one session's pending table.
`broker` is the outcome of the underlying `message.ack()` call: `.ok ()` if it
succeeds, `.error e` if it raises. -/
def acknowledge (pm : PendingMap) (tag : Nat) (broker : Except String Unit) :
    PendingMap × SettleResult :=
  match pm tag with
  | none => (pm, .ok false)
  | some m =>
      match broker with
      | .ok _ => (pm.eraseTag tag, .ok true)
      | .error e => ((pm.eraseTag tag).putTag tag m, .error e)

/-- `AMQPClient.reject` restricted to one session's pending table; `requeue` is
forwarded to the broker and does not affect the table. `broker` is the outcome
of the underlying `message.reject(requeue=...)` call. -/
def reject (pm : PendingMap) (tag : Nat) (requeue : Bool)
    (broker : Except String Unit) : PendingMap × SettleResult :=
  match pm tag with
  | none => (pm, .ok false)
  | some m =>
      match broker with
      | .ok _ => (pm.eraseTag tag, .ok true)
      | .error e => ((pm.eraseTag tag).putTag tag m, .error e)

/-- The effect of `AMQPClient.consume_one` on the pending table when a message
arrives: with `auto_ack` set, or without a usable delivery tag, the message is
acknowledged immediately and not tracked; otherwise it is stored under its
delivery tag. -/
def consume_one_store (pm : PendingMap) (auto_ack : Bool) (tag : Option Nat)
    (msg : Nat) : PendingMap :=
  if auto_ack then pm
  else
    match tag with
    | some t => pm.putTag t msg
    | none => pm

/-- One session-level message operation, as observed by the pending table. -/
inductive MsgOp where
  | consume_one (auto_ack : Bool) (tag : Option Nat) (msg : Nat)
  | acknowledge (tag : Nat) (broker : Except String Unit)
  | reject (tag : Nat) (requeue : Bool) (broker : Except String Unit)

/-- The pending-table effect of one operation. -/
def stepOp (pm : PendingMap) : MsgOp → PendingMap
  | .consume_one a tg m => consume_one_store pm a tg m
  | .acknowledge tg broker => (acknowledge pm tg broker).1
  | .reject tg rq broker => (reject pm tg rq broker).1

/-- Run a sequence of operations against a pending table. -/
def runOps (pm : PendingMap) (ops : List MsgOp) : PendingMap :=
  ops.foldl stepOp pm

/-- Whether a broker call returned normally. -/
def brokerOk : Except String Unit → Bool
  | .ok _ => true
  | .error _ => false

/-- Whether an operation, fired against table `pm`, successfully settles
delivery tag `t`: it is an acknowledge or reject of `t` whose broker call
succeeds and which finds `t` in the table (so it returns true). -/
def settlesNow (pm : PendingMap) (t : Nat) : MsgOp → Bool
  | .consume_one _ _ _ => false
  | .acknowledge u broker => decide (u = t) && brokerOk broker && (pm u).isSome
  | .reject u _ broker => decide (u = t) && brokerOk broker && (pm u).isSome

/-- Whether tag `t` is successfully acknowledged or rejected somewhere in
`ops`, run from table `pm`. -/
def anySettle (pm : PendingMap) (t : Nat) : List MsgOp → Bool
  | [] => false
  | op :: rest => settlesNow pm t op || anySettle (stepOp pm op) t rest

/-! ### Bookkeeping lemmas for the trace invariant (claim C3) -/

theorem runOps_append (pm : PendingMap) (l1 l2 : List MsgOp) :
    runOps pm (l1 ++ l2) = runOps (runOps pm l1) l2 := by
  simp [runOps, List.foldl_append]

theorem runOps_cons (pm : PendingMap) (op : MsgOp) (l : List MsgOp) :
    runOps pm (op :: l) = runOps (stepOp pm op) l := rfl

theorem anySettle_append (pm : PendingMap) (t : Nat) (l : List MsgOp) (op : MsgOp) :
    anySettle pm t (l ++ [op]) =
      (anySettle pm t l || settlesNow (runOps pm l) t op) := by
  induction l generalizing pm with
  | nil => simp [anySettle, runOps, settlesNow]
  | cons a rest ih =>
      simp only [List.cons_append, anySettle, runOps_cons, List.append_eq]
      rw [ih, Bool.or_assoc]

theorem snoc_eq_append_cons {α : Type} (l : List α) (op : α) (pre : List α) (c : α)
    (post : List α) :
    l ++ [op] = pre ++ c :: post ↔
      (pre = l ∧ c = op ∧ post = []) ∨
      ∃ post2, post = post2 ++ [op] ∧ l = pre ++ c :: post2 := by
  constructor
  · intro h
    rcases List.eq_nil_or_concat post with hp | ⟨L, b, hp⟩
    · subst hp
      rcases List.append_inj' h (by simp) with ⟨h1, h2⟩
      simp only [List.cons.injEq] at h2
      exact Or.inl ⟨h1.symm, h2.1.symm, rfl⟩
    · rw [List.concat_eq_append] at hp
      subst hp
      have heq : pre ++ c :: (L ++ [b]) = (pre ++ c :: L) ++ [b] := by simp
      rcases List.append_inj' (h.trans heq) (by simp) with ⟨h3, h4⟩
      simp only [List.cons.injEq] at h4
      exact Or.inr ⟨L, by rw [h4.1], h3⟩
  · rintro (⟨rfl, rfl, rfl⟩ | ⟨post2, rfl, rfl⟩) <;> simp

theorem rhs_snoc_nonconsume (l : List MsgOp) (op : MsgOp) (t : Nat)
    (hop : ∀ m, op ≠ .consume_one false (some t) m) :
    (∃ pre m post, l ++ [op] = pre ++ MsgOp.consume_one false (some t) m :: post ∧
        anySettle (runOps PendingMap.empty (pre ++ [MsgOp.consume_one false (some t) m]))
          t post = false) ↔
      ((∃ pre m post, l = pre ++ MsgOp.consume_one false (some t) m :: post ∧
          anySettle (runOps PendingMap.empty (pre ++ [MsgOp.consume_one false (some t) m]))
            t post = false) ∧
        settlesNow (runOps PendingMap.empty l) t op = false) := by
  constructor
  · rintro ⟨pre, m, post, hdec, hset⟩
    rcases (snoc_eq_append_cons l op pre _ post).mp hdec with ⟨hpre, hc, hpost⟩ |
      ⟨post2, hpost, hl⟩
    · exact absurd hc.symm (hop m)
    · subst hpost
      subst hl
      rw [anySettle_append] at hset
      rcases Bool.or_eq_false_iff.mp hset with ⟨hs1, hs2⟩
      have hrun : runOps (runOps PendingMap.empty
          (pre ++ [MsgOp.consume_one false (some t) m])) post2 =
          runOps PendingMap.empty (pre ++ MsgOp.consume_one false (some t) m :: post2) := by
        rw [← runOps_append]
        simp
      rw [hrun] at hs2
      exact ⟨⟨pre, m, post2, rfl, hs1⟩, hs2⟩
  · rintro ⟨⟨pre, m, post, rfl, hset⟩, hnow⟩
    refine ⟨pre, m, post ++ [op], by simp, ?_⟩
    rw [anySettle_append]
    have hrun : runOps (runOps PendingMap.empty
        (pre ++ [MsgOp.consume_one false (some t) m])) post =
        runOps PendingMap.empty (pre ++ MsgOp.consume_one false (some t) m :: post) := by
      rw [← runOps_append]
      simp
    rw [hset, hrun, hnow]
    rfl

theorem consume_step_membership (pm : PendingMap) (t : Nat) (a : Bool) (tg : Option Nat)
    (m0 : Nat) (h : a = true ∨ tg ≠ some t) :
    consume_one_store pm a tg m0 t = pm t := by
  rcases h with h | h
  · simp [consume_one_store, h]
  · cases a
    · cases tg with
      | none => simp [consume_one_store]
      | some u =>
          have hu : u ≠ t := fun hc => h (by rw [hc])
          have htu : t ≠ u := Ne.symm hu
          simp [consume_one_store, PendingMap.putTag, htu]
    · simp [consume_one_store]

theorem ack_step_membership (pm : PendingMap) (t u : Nat) (b : Except String Unit) :
    (((acknowledge pm u b).1 t).isSome = true) ↔
      ((pm t).isSome = true ∧ settlesNow pm t (.acknowledge u b) = false) := by
  by_cases hu : u = t
  · subst hu
    cases hm : pm u with
    | none => simp [acknowledge, hm, settlesNow]
    | some m =>
        cases b with
        | ok v => simp [acknowledge, hm, settlesNow, PendingMap.eraseTag, brokerOk]
        | error e =>
            simp [acknowledge, hm, settlesNow, PendingMap.eraseTag, PendingMap.putTag, brokerOk]
  · have hut : (decide (u = t)) = false := by simp [hu]
    have htu : t ≠ u := fun hc => hu hc.symm
    cases hm : pm u with
    | none => simp [acknowledge, hm, settlesNow, hut]
    | some m =>
        cases b with
        | ok v =>
            simp [acknowledge, hm, settlesNow, hut, PendingMap.eraseTag, htu]
        | error e =>
            simp [acknowledge, hm, settlesNow, hut, PendingMap.eraseTag, PendingMap.putTag,
              htu]

theorem reject_step_membership (pm : PendingMap) (t u : Nat) (rq : Bool)
    (b : Except String Unit) :
    (((reject pm u rq b).1 t).isSome = true) ↔
      ((pm t).isSome = true ∧ settlesNow pm t (.reject u rq b) = false) := by
  have h : (reject pm u rq b).1 = (acknowledge pm u b).1 := by
    cases hm : pm u <;> cases b <;> simp [reject, acknowledge, hm]
  rw [h]
  have h2 : settlesNow pm t (.reject u rq b) = settlesNow pm t (.acknowledge u b) := rfl
  rw [h2]
  exact ack_step_membership pm t u b

/-- Claim C3: after any sequence of `consume_one` / `acknowledge` / `reject`
operations on a session, a delivery tag is a key of the pending table if and
only if a message with that tag was stored by some `consume_one` with
`auto_ack` unset and a usable delivery tag, and has not since been
successfully acknowledged or rejected. -/
theorem pending_iff_consumed (ops : List MsgOp) (t : Nat) :
    ((runOps PendingMap.empty ops t).isSome = true) ↔
      ∃ pre m post, ops = pre ++ MsgOp.consume_one false (some t) m :: post ∧
        anySettle (runOps PendingMap.empty (pre ++ [MsgOp.consume_one false (some t) m]))
          t post = false := by
  induction ops using List.reverseRecOn with
  | nil =>
      constructor
      · intro h
        exact absurd h (by simp [runOps, PendingMap.empty])
      · rintro ⟨pre, m, post, h, _⟩
        exact absurd h (by simp)
  | append_singleton l op ih =>
      rw [runOps_append]
      cases op with
      | consume_one a tg m0 =>
          by_cases hmatch : a = false ∧ tg = some t
          · rcases hmatch with ⟨rfl, rfl⟩
            constructor
            · intro _
              exact ⟨l, m0, [], rfl, by simp [anySettle]⟩
            · intro _
              simp [runOps, stepOp, consume_one_store, PendingMap.putTag]
          · have hnc : a = true ∨ tg ≠ some t := by
              rcases a with _ | _
              · exact Or.inr fun hc => hmatch ⟨rfl, hc⟩
              · exact Or.inl rfl
            have hop : ∀ m, MsgOp.consume_one a tg m0 ≠
                MsgOp.consume_one false (some t) m := by
              intro m hc
              injection hc with h1 h2 h3
              rcases hnc with h | h
              · rw [h1] at h; cases h
              · exact h h2
            rw [rhs_snoc_nonconsume l _ t hop]
            have hstep : runOps (runOps PendingMap.empty l) [MsgOp.consume_one a tg m0] t =
                runOps PendingMap.empty l t := by
              simp only [runOps, List.foldl_cons, List.foldl_nil, stepOp]
              exact consume_step_membership _ t a tg m0 hnc
            rw [hstep, ih]
            have hnow : settlesNow (runOps PendingMap.empty l) t
                (.consume_one a tg m0) = false := rfl
            rw [hnow]
            simp
      | acknowledge u b =>
          rw [rhs_snoc_nonconsume l _ t (fun m hc => by cases hc)]
          rw [← ih]
          have hstep : runOps (runOps PendingMap.empty l) [MsgOp.acknowledge u b] =
              (acknowledge (runOps PendingMap.empty l) u b).1 := rfl
          rw [hstep]
          exact ack_step_membership (runOps PendingMap.empty l) t u b
      | reject u rq b =>
          rw [rhs_snoc_nonconsume l _ t (fun m hc => by cases hc)]
          rw [← ih]
          have hstep : runOps (runOps PendingMap.empty l) [MsgOp.reject u rq b] =
              (reject (runOps PendingMap.empty l) u rq b).1 := rfl
          rw [hstep]
          exact reject_step_membership (runOps PendingMap.empty l) t u rq b

/-! ### Claims C4 and C5 -/

/-- Claim C4: for a delivery tag not present in the session's pending table,
`acknowledge` and `reject` return false (not found) without raising, whatever
the broker would have answered; and after a successful acknowledge of a
tracked tag `t` (which returns true), a second acknowledge of `t` returns
false without raising. -/
theorem settle_unknown_tag (pm : PendingMap) (t : Nat) (rq : Bool)
    (b : Except String Unit) :
    (pm t = none →
      acknowledge pm t b = (pm, .ok false) ∧ reject pm t rq b = (pm, .ok false)) ∧
    (∀ m, pm t = some m →
      (acknowledge pm t (.ok ())).2 = .ok true ∧
      acknowledge ((acknowledge pm t (.ok ())).1) t b =
        ((acknowledge pm t (.ok ())).1, .ok false)) := by
  constructor
  · intro h
    exact ⟨by simp [acknowledge, h], by simp [reject, h]⟩
  · intro m h
    have h1 : (acknowledge pm t (.ok ())).1 = pm.eraseTag t := by
      simp [acknowledge, h]
    refine ⟨by simp [acknowledge, h], ?_⟩
    rw [h1]
    have h2 : pm.eraseTag t t = none := by simp [PendingMap.eraseTag]
    simp [acknowledge, h2]

/-- A closed instance of `settle_unknown_tag`: on a table tracking only tag 3,
settling the absent tag 7 returns false for both operations, and tag 3 is
acknowledged successfully once and reports false the second time. -/
theorem settle_unknown_tag_witness :
    (acknowledge (PendingMap.empty.putTag 3 11) 7 (.ok ()) =
      (PendingMap.empty.putTag 3 11, .ok false)) ∧
    (reject (PendingMap.empty.putTag 3 11) 7 true (.ok ()) =
      (PendingMap.empty.putTag 3 11, .ok false)) ∧
    (acknowledge (PendingMap.empty.putTag 3 11) 3 (.ok ())).2 = .ok true ∧
    (acknowledge ((acknowledge (PendingMap.empty.putTag 3 11) 3 (.ok ())).1) 3 (.ok ())).2 =
      .ok false := by
  have h7 := (settle_unknown_tag (PendingMap.empty.putTag 3 11) 7 true (.ok ())).1 rfl
  have h3 := (settle_unknown_tag (PendingMap.empty.putTag 3 11) 3 true (.ok ())).2 11 rfl
  exact ⟨h7.1, h7.2, h3.1, by rw [h3.2]⟩

/-- Claim C5: if the broker acknowledge (or reject) call fails on a tracked
tag, the message is put back under the same delivery tag — the resulting table
equals the original — and the broker failure is re-raised. -/
theorem settle_failure_atomic (pm : PendingMap) (t : Nat) (m : Nat) (rq : Bool)
    (e : String) (h : pm t = some m) :
    acknowledge pm t (.error e) = (pm, .error e) ∧
    reject pm t rq (.error e) = (pm, .error e) := by
  have hback : (pm.eraseTag t).putTag t m = pm := by
    funext u
    by_cases hu : u = t
    · simp [PendingMap.putTag, PendingMap.eraseTag, hu, h.symm]
    · simp [PendingMap.putTag, PendingMap.eraseTag, hu]
  constructor
  · simp [acknowledge, h, hback]
  · simp [reject, h, hback]

/-- A closed instance of `settle_failure_atomic`: tag 3 tracked with message
11, broker failure leaves the table unchanged and re-raises. -/
theorem settle_failure_atomic_witness :
    (PendingMap.empty.putTag 3 11) 3 = some 11 ∧
    acknowledge (PendingMap.empty.putTag 3 11) 3 (.error "boom") =
      (PendingMap.empty.putTag 3 11, .error "boom") ∧
    reject (PendingMap.empty.putTag 3 11) 3 false (.error "boom") =
      (PendingMap.empty.putTag 3 11, .error "boom") :=
  ⟨rfl, (settle_failure_atomic (PendingMap.empty.putTag 3 11) 3 11 false "boom" rfl).1,
    (settle_failure_atomic (PendingMap.empty.putTag 3 11) 3 11 false "boom" rfl).2⟩

/-! ## Publish pipeline (`AMQPClient.publish`) -/

/-- The exception classes that can escape `AMQPClient.publish`. -/
inductive PublishErr where
  | CircuitBreakerOpen
  | AMQPPublishError (msg : String)
  | AMQPConnectionError (msg : String)
deriving DecidableEq, Repr

/-- Modelled from the spec: `validate_message_size` is imported from
`rmq_middleware.security` by `amqp_wrapper.py` but its definition is absent
from the sources (only its unit tests and this caller exist).  Per the spec
("Validates payload size against a configured maximum before touching the
network"; ValidationError: "payload exceeds size limit") and its tests, it
raises `InputValidationError` exactly when the payload's serialized size
exceeds the configured maximum message size. -/
def validate_message_size (size maxSize : Nat) : Except String Unit :=
  if maxSize < size then .error "Message body exceeds maximum size" else .ok ()

/-- Outcome of the broker-facing part of a publish call (the `get_exchange` /
`publish` block), matching the `except` clauses of `AMQPClient.publish`.  The
channel-closed classification that checks the error text for access /
permission / auth substrings is modelled by the `auth_related` flag. -/
inductive BrokerPublish where
  | published
  | confirmTimeout
  | channelClosed (msg : String) (auth_related : Bool)
  | amqpError (msg : String)
  | unexpected (msg : String)
deriving DecidableEq, Repr

/-- What a publish call did: its result, whether `_get_session` was reached,
and whether the broker publish call was reached. -/
structure PublishTrace where
  result : Except PublishErr Unit
  session_resolved : Bool
  broker_called : Bool
deriving Repr

/-- `AMQPClient.publish`: circuit-breaker gate, then size validation, then
session resolution, then the broker call.  `allow` is the answer of
`allow_request`, `sessionRes` the outcome of `_get_session`. -/
def publish (allow : Bool) (size maxSize : Nat) (sessionRes : Except String Unit)
    (broker : BrokerPublish) : PublishTrace :=
  if !allow then ⟨.error .CircuitBreakerOpen, false, false⟩
  else
    match validate_message_size size maxSize with
    | .error e => ⟨.error (.AMQPPublishError ("Message validation failed: " ++ e)), false, false⟩
    | .ok _ =>
        match sessionRes with
        | .error e => ⟨.error (.AMQPConnectionError e), true, false⟩
        | .ok _ =>
            match broker with
            | .published => ⟨.ok (), true, true⟩
            | .confirmTimeout =>
                ⟨.error (.AMQPPublishError "Publish confirmation timeout"), true, true⟩
            | .channelClosed msg auth =>
                if auth then
                  ⟨.error (.AMQPConnectionError ("Authentication failed: " ++ msg)), true, true⟩
                else ⟨.error (.AMQPPublishError ("Channel closed: " ++ msg)), true, true⟩
            | .amqpError msg => ⟨.error (.AMQPPublishError ("AMQP error: " ++ msg)), true, true⟩
            | .unexpected msg =>
                ⟨.error (.AMQPPublishError ("Failed to publish message: " ++ msg)), true, true⟩

/-- Counterexample to claim C6 as stated: an oversized payload (size 200,
maximum 100) makes `publish` fail with an `AMQPPublishError` — the same error
class as broker publish errors — not with a distinct validation error class,
so the failure is NOT distinguishable by kind from publish errors. -/
theorem oversized_payload_is_publish_error :
    publish true 200 100 (.ok ()) .published =
      ⟨.error (.AMQPPublishError "Message validation failed: Message body exceeds maximum size"),
        false, false⟩ := by
  rfl

/-- Claim C6 (amended): for every payload whose size exceeds the configured
maximum, `publish` (when the breaker admits the request) fails before any
session is resolved or broker interaction occurs, raising the validation
failure wrapped as an `AMQPPublishError` with a "Message validation failed"
message: distinguishable from connection errors and from the circuit-open
condition, but sharing the publish-error class. -/
theorem publish_oversized_spec (allow : Bool) (size maxSize : Nat)
    (sessionRes : Except String Unit) (broker : BrokerPublish)
    (hallow : allow = true) (hsize : maxSize < size) :
    publish allow size maxSize sessionRes broker =
      ⟨.error (.AMQPPublishError "Message validation failed: Message body exceeds maximum size"),
        false, false⟩ := by
  subst hallow
  simp [publish, validate_message_size, hsize]

/-- A closed instance of `publish_oversized_spec` at size 200, maximum 100. -/
theorem publish_oversized_spec_witness :
    (100 : Nat) < 200 ∧
    publish true 200 100 (.error "unreachable") .confirmTimeout =
      ⟨.error (.AMQPPublishError "Message validation failed: Message body exceeds maximum size"),
        false, false⟩ :=
  ⟨by decide, publish_oversized_spec true 200 100 (.error "unreachable") .confirmTimeout rfl
    (by decide)⟩

/-! ## `AMQPClient._create_session` retry loop -/

/-- The retry loop of `_create_session`: `i` is the current attempt index,
`fuel` the number of attempts left (`retry_attempts - i`), `outcomes j` the
result of the `j`-th connection attempt (a session id, or a raised error
message), `lastErr` the last error seen and `delays` the sleeps performed so
far.  Returns the result — `.error lastErr` models raising
`AMQPConnectionError` carrying the last underlying error — and the list of
backoff delays slept, in order. -/
def csGo (outcomes : Nat → Except String Nat) (base : ℚ) :
    Nat → Nat → Option String → List ℚ → Except (Option String) Nat × List ℚ
  | _, 0, lastErr, delays => (.error lastErr, delays)
  | i, fuel + 1, lastErr, delays =>
      let delays2 := if i = 0 then delays else delays ++ [base * 2 ^ (i - 1)]
      match outcomes i with
      | .ok s => (.ok s, delays2)
      | .error e => csGo outcomes base (i + 1) fuel (some e) delays2

/-- `AMQPClient._create_session` with `retry_attempts` attempts and
`retry_base_delay` seconds base backoff delay. -/
def create_session (retry_attempts : Nat) (base : ℚ)
    (outcomes : Nat → Except String Nat) : Except (Option String) Nat × List ℚ :=
  csGo outcomes base 0 retry_attempts none []

theorem csGo_all_fail (outcomes : Nat → Except String Nat) (base : ℚ) (err : Nat → String) :
    ∀ (fuel : Nat), 0 < fuel → ∀ (i : Nat) (lastErr : Option String) (delays : List ℚ),
      1 ≤ i → (∀ j, i ≤ j → j < i + fuel → outcomes j = .error (err j)) →
      csGo outcomes base i fuel lastErr delays =
        (.error (some (err (i + fuel - 1))),
          delays ++ (List.range' i fuel).map (fun j => base * 2 ^ (j - 1))) := by
  intro fuel
  induction fuel with
  | zero => intro h; omega
  | succ f ih =>
      intro _ i lastErr delays hi hall
      have hne : ¬ i = 0 := by omega
      have hout : outcomes i = .error (err i) := hall i le_rfl (by omega)
      simp only [csGo, hne, if_false, hout]
      by_cases hf : f = 0
      · subst hf
        simp only [csGo, List.range']
        have h1 : i + 1 - 1 = i := by omega
        rw [h1]
        simp
      · have hfpos : 0 < f := Nat.pos_of_ne_zero hf
        rw [ih hfpos (i + 1) (some (err i)) (delays ++ [base * 2 ^ (i - 1)]) (by omega)
          (fun j h1 h2 => hall j (by omega) (by omega))]
        have h1 : i + 1 + f - 1 = i + (f + 1) - 1 := by omega
        rw [h1]
        have h2 : List.range' i (f + 1) = i :: List.range' (i + 1) f := List.range'_succ i f 1
        rw [h2]
        simp

theorem csGo_success (outcomes : Nat → Except String Nat) (base : ℚ) (err : Nat → String) :
    ∀ (fuel : Nat) (i : Nat) (lastErr : Option String) (delays : List ℚ) (k s : Nat),
      1 ≤ i → i ≤ k → k < i + fuel →
      (∀ j, i ≤ j → j < k → outcomes j = .error (err j)) → outcomes k = .ok s →
      csGo outcomes base i fuel lastErr delays =
        (.ok s, delays ++ (List.range' i (k - i + 1)).map (fun j => base * 2 ^ (j - 1))) := by
  intro fuel
  induction fuel with
  | zero => intro i lastErr delays k s h1 h2 h3; omega
  | succ f ih =>
      intro i lastErr delays k s hi hik hkf hall hok
      have hne : ¬ i = 0 := by omega
      by_cases hk : k = i
      · subst hk
        simp only [csGo, hne, if_false, hok]
        have h1 : k - k + 1 = 1 := by omega
        rw [h1]
        simp [List.range']
      · have hout : outcomes i = .error (err i) := hall i le_rfl (by omega)
        simp only [csGo, hne, if_false, hout]
        rw [ih (i + 1) (some (err i)) (delays ++ [base * 2 ^ (i - 1)]) k s (by omega)
          (by omega) (by omega) (fun j ha hb => hall j (by omega) hb) hok]
        have h2 : List.range' i (k - i + 1) = i :: List.range' (i + 1) (k - i) :=
          List.range'_succ i (k - i) 1
        have h3 : k - (i + 1) + 1 = k - i := by omega
        rw [h3, h2]
        simp

theorem range'_one_delays (base : ℚ) (k : Nat) :
    (List.range' 1 k).map (fun j => base * 2 ^ (j - 1)) =
      (List.range k).map (fun a => base * 2 ^ a) := by
  rw [List.range'_eq_map_range]
  rw [List.map_map]
  apply List.map_congr_left
  intro a _
  simp only [Function.comp]
  have h : 1 + a - 1 = a := by omega
  rw [h]

/-- Claim C7: `create_session` performs up to `retry_attempts` connection
attempts, with no delay before the first attempt and a delay of
`retry_base_delay * 2 ^ (attempt - 1)` seconds before each subsequent attempt
(the delays component lists every sleep, in order); when every attempt fails
it raises a connection-failure error carrying the last underlying error, and
when attempt `k` is the first to succeed it returns that session after `k + 1`
attempts with only the first `k` backoff delays slept. -/
theorem create_session_spec (n : Nat) (base : ℚ) (outcomes : Nat → Except String Nat)
    (err : Nat → String) (hn : 0 < n) :
    ((∀ j, j < n → outcomes j = .error (err j)) →
      create_session n base outcomes =
        (.error (some (err (n - 1))), (List.range (n - 1)).map (fun a => base * 2 ^ a))) ∧
    (∀ k s, k < n → (∀ j, j < k → outcomes j = .error (err j)) → outcomes k = .ok s →
      create_session n base outcomes =
        (.ok s, (List.range k).map (fun a => base * 2 ^ a))) := by
  constructor
  · intro hall
    unfold create_session
    cases n with
    | zero => omega
    | succ m =>
        have hout0 : outcomes 0 = .error (err 0) := hall 0 (by omega)
        have hstep : csGo outcomes base 0 (m + 1) none [] =
            csGo outcomes base 1 m (some (err 0)) [] := by
          simp [csGo, hout0]
        rw [hstep]
        cases m with
        | zero => simp [csGo, List.range_zero]
        | succ k =>
            rw [csGo_all_fail outcomes base err (k + 1) (by omega) 1 (some (err 0)) []
              le_rfl (fun j h1 h2 => hall j (by omega))]
            have h1 : 1 + (k + 1) - 1 = k + 1 := by omega
            have h2 : k + 1 + 1 - 1 = k + 1 := by omega
            rw [h1, h2, List.nil_append, range'_one_delays]
  · intro k s hk hfail hok
    unfold create_session
    cases n with
    | zero => omega
    | succ m =>
        cases hk0 : k with
        | zero =>
            have hok0 : outcomes 0 = .ok s := by rw [← hk0]; exact hok
            simp [csGo, hok0, List.range_zero]
        | succ j =>
            have hout0 : outcomes 0 = .error (err 0) := hfail 0 (by omega)
            have hstep : csGo outcomes base 0 (m + 1) none [] =
                csGo outcomes base 1 m (some (err 0)) [] := by
              simp [csGo, hout0]
            rw [hstep]
            rw [← hk0]
            rw [csGo_success outcomes base err m 1 (some (err 0)) [] k s le_rfl (by omega)
              (by omega) (fun j2 ha hb => hfail j2 hb) hok]
            have h1 : k - 1 + 1 = k := by omega
            rw [h1, List.nil_append, range'_one_delays]

/-- A closed instance of `create_session_spec` with 3 attempts, base delay 1/2:
all attempts failing yields the last error and delays 1/2 and 1; success on
attempt 1 (the second) yields the session with only the first delay slept. -/
theorem create_session_spec_witness :
    (0 : Nat) < 3 ∧
    create_session 3 (1 / 2) (fun _ => .error "down") =
      (.error (some "down"), (List.range 2).map (fun a => (1 / 2 : ℚ) * 2 ^ a)) :=
  ⟨by decide,
    (create_session_spec 3 (1 / 2) (fun _ => .error "down") (fun _ => "down")
      (by decide)).1 (fun j hj => rfl)⟩

/-! ## `AMQPClient.health_check` -/

/-- The per-session facts `health_check` reads. -/
structure SessionLite where
  connection_closed : Bool
  pending_count : Nat
deriving DecidableEq, Repr

/-- The client state `health_check` reads: the pooled user sessions and the
circuit breaker. -/
structure ClientState where
  sessions : List SessionLite
  cb : CircuitBreaker

/-- The dictionary returned by `health_check`. -/
structure HealthStatus where
  connected : Bool
  ready : Bool
  state : String
  pending_messages : Nat
  active_sessions : Nat
  circuit_breaker : CBMetrics
deriving DecidableEq, Repr

/-- `AMQPClient.health_check`: computes breaker metrics, then resolves the
system session (`sysRes` is the outcome of `_get_session(None)`); every
exception from that resolution is caught and answered with the disconnected
fallback dictionary — the function is total, it never raises. -/
def health_check (cfg : CBConfig) (now : ℚ) (st : ClientState)
    (sysRes : Except String SessionLite) : HealthStatus :=
  let cb_metrics := metrics cfg now st.cb
  match sysRes with
  | .ok session =>
      let connected := !session.connection_closed
      { connected := connected,
        ready := connected && decide (cb_metrics.state ≠ "open"),
        state := if connected then "connected" else "disconnected",
        pending_messages :=
          session.pending_count + (st.sessions.map (fun s => s.pending_count)).sum,
        active_sessions := st.sessions.length,
        circuit_breaker := cb_metrics }
  | .error _ =>
      { connected := false, ready := false, state := "disconnected",
        pending_messages := 0, active_sessions := st.sessions.length,
        circuit_breaker := cb_metrics }

/-- Claim C10: `health_check` is a total function (never raises) and, whenever
resolving the system session fails with any error, it returns the status
mapping with `connected = false`, `ready = false`, state `"disconnected"` and
zero pending messages, while still carrying the circuit-breaker metrics. -/
theorem health_check_failure_spec (cfg : CBConfig) (now : ℚ) (st : ClientState) (e : String) :
    health_check cfg now st (.error e) =
      { connected := false, ready := false, state := "disconnected",
        pending_messages := 0, active_sessions := st.sessions.length,
        circuit_breaker := metrics cfg now st.cb } := by
  rfl

end RMQ
